import Mathlib

/-!
Verification of the spdlog daily/minute rotating file sinks
(`daily_file_sink.h` / `minute_file_sink.h` of this repository).

Modelling conventions:
* file names (`filename_t`) are lists of characters;
* `log_clock::time_point` values are seconds since the Unix epoch (`Nat`);
* `struct tm` is represented by the bijectively equivalent record
  `(day count since epoch, hour, minute, second)`; the calendar fields
  `tm_year/tm_mon/tm_mday` used for rendering are recovered from the day
  count with the standard Gregorian algorithm (as C `localtime` does, with
  the time zone fixed to UTC);
* the OS file system is an association list from names to byte contents,
  and fallible OS calls (`remove`, `path_exists`) take explicit oracles.
-/

abbrev Filename := List Char

/-! ## Characters and decimal rendering (the `fmt` format calls) -/

/-- Decimal digits of `n`, most significant first; `fuel`-driven structural
recursion mirroring the positional rendering done by `fmt::format("{:d}", n)`. -/
def natCharsAux : Nat → Nat → List Char
  | 0, _ => []
  | _ + 1, 0 => []
  | fuel + 1, n + 1 => natCharsAux fuel ((n + 1) / 10) ++ [Nat.digitChar ((n + 1) % 10)]

/-- Decimal rendering of `n` (`"0"` for zero). -/
def natChars (n : Nat) : List Char :=
  if n = 0 then ['0'] else natCharsAux n n

/-- Zero-padded decimal rendering to a minimum width, modelling the
`{:04d}` / `{:02d}` format specifiers used by the filename calculators. -/
def padNum (w n : Nat) : List Char :=
  List.replicate (w - (natChars n).length) '0' ++ natChars n

/-! ## Splitting a path into stem and extension -/

/-- Helper for `split_by_extension`: returns `some (stem, ext)` when the input
has a dot that is not followed by a path separator (i.e. a dot inside the
final path component), choosing the rightmost such dot; `none` otherwise. -/
def splitByExtAux : List Char → Option (List Char × List Char)
  | [] => none
  | c :: cs =>
    match splitByExtAux cs with
    | some (s, e) => some (c :: s, e)
    | none => if c = '.' ∧ (∀ x ∈ cs, x ≠ '/') then some ([], c :: cs) else none

/-- Modelled from the spec: `details::file_helper::split_by_extension`
(`file_helper.h` is not among the sources). Spec §3 (BaseName): the
"extension is the substring after the last path separator's last dot, or
empty"; the stem is everything before it. -/
def split_by_extension (f : Filename) : Filename × Filename :=
  match splitByExtAux f with
  | some p => p
  | none => (f, [])

/-- Part of the filename after the last occurrence of `c`, or `none` if `c`
does not occur; models `std::string::find_last_of` followed by `substr`. -/
def afterLast (c : Char) : List Char → Option (List Char)
  | [] => none
  | x :: xs =>
    match afterLast c xs with
    | some r => some r
    | none => if x = c then some xs else none

/-! ## Calendar time -/

/-- Civil date (year, 1-based month, 1-based day) of a day count since
1970-01-01, by the standard Gregorian-calendar algorithm. -/
def civilFromDays (n : Nat) : Nat × Nat × Nat :=
  let z := n + 719468
  let era := z / 146097
  let doe := z % 146097
  let yoe := (doe - doe / 1460 + doe / 36524 - doe / 146096) / 365
  let y := yoe + era * 400
  let doy := doe - (365 * yoe + yoe / 4 - yoe / 100)
  let mp := (5 * doy + 2) / 153
  let d := doy - (153 * mp + 2) / 5 + 1
  let m := if mp < 10 then mp + 3 else mp - 9
  (if m ≤ 2 then y + 1 else y, m, d)

/-- A `struct tm` value, stored as day count plus time of day (a bijective
repackaging of `tm_year/tm_mon/tm_mday/tm_hour/tm_min/tm_sec` for times at or
after the epoch). -/
structure Tm where
  day : Nat
  hour : Nat
  min : Nat
  sec : Nat
deriving DecidableEq

/-- The `tm_year + 1900` field rendered by the filename calculators. -/
def Tm.year (t : Tm) : Nat := (civilFromDays t.day).1

/-- The `tm_mon + 1` field rendered by the filename calculators. -/
def Tm.mon (t : Tm) : Nat := (civilFromDays t.day).2.1

/-- The `tm_mday` field rendered by the filename calculators. -/
def Tm.mday (t : Tm) : Nat := (civilFromDays t.day).2.2

/-- `spdlog::details::os::localtime` composed with `log_clock::to_time_t`
(modelled in UTC): calendar breakdown of a timestamp. -/
def localtime (t : Nat) : Tm :=
  { day := t / 86400, hour := t % 86400 / 3600, min := t % 86400 % 3600 / 60, sec := t % 60 }

/-! ## Filename calculators -/

/-- `daily_filename_calculator::filename_prefix_symbol`: the reserved
delimiter between stem and date suffix. -/
def filename_prefix_symbol : Char := '_'

/-- The `YYYY-MM-DD` suffix rendered by
`fmt::format("{:04d}-{:02d}-{:02d}", tm_year+1900, tm_mon+1, tm_mday)`. -/
def dateSuffix (t : Tm) : List Char :=
  padNum 4 t.year ++ '-' :: padNum 2 t.mon ++ '-' :: padNum 2 t.mday

/-- `daily_filename_calculator::calc_filename`: stem ++ `_` ++ `YYYY-MM-DD`
++ extension. -/
def calc_filename (f : Filename) (t : Tm) : Filename :=
  let p := split_by_extension f
  p.1 ++ filename_prefix_symbol :: dateSuffix t ++ p.2

/-- `daily_filename_calculator::extract_date_suffix`: recover the date suffix
of a filename produced by `calc_filename` from `base_filename`; returns the
empty string when the name does not match. -/
def extract_date_suffix (base_filename f : Filename) : Filename :=
  let base_no_ext := (split_by_extension base_filename).1
  let pre := base_no_ext ++ [filename_prefix_symbol]
  if pre.isPrefixOf f then
    let f_no_ext := (split_by_extension f).1
    match afterLast filename_prefix_symbol f_no_ext with
    | some r => r
    | none => []
  else []

/-- The `YYYY-MM-DD-HH_MM` suffix of `minute_filename_calculator`. -/
def minuteSuffix (t : Tm) : List Char :=
  dateSuffix t ++ '-' :: padNum 2 t.hour ++ '_' :: padNum 2 t.min

/-- `minute_filename_calculator::calc_filename`: stem ++ `_` ++
`YYYY-MM-DD-HH_MM` ++ extension. -/
def minute_calc_filename (f : Filename) (t : Tm) : Filename :=
  let p := split_by_extension f
  p.1 ++ filename_prefix_symbol :: minuteSuffix t ++ p.2

/-! ## Rotation boundary schedulers -/

/-- `daily_file_sink::next_rotation_tp_`: today's rotation instant
(`rotation_h_:rotation_m_:00`), pushed one day later when not in the future. -/
def nextRotationDaily (now rh rm : Nat) : Nat :=
  let rotationTime := now / 86400 * 86400 + rh * 3600 + rm * 60
  if now < rotationTime then rotationTime else rotationTime + 86400

/-- `minute_file_sink::next_rotation_tp_`: `now` with `tm_sec` zeroed
(the start of the current minute), pushed `rotation_m_` minutes later when
not in the future. -/
def nextRotationMinute (now rm : Nat) : Nat :=
  let rotationTime := now / 86400 * 86400 + now % 86400 / 3600 * 3600 + now % 86400 % 3600 / 60 * 60
  if now < rotationTime then rotationTime else rotationTime + 60 * rm

/-! ## File system model -/

/-- The observable file system: an association list from names to contents. -/
abbrev FS := List (Filename × List Nat)

/-- Contents of `f`, when it exists. -/
def fsLookup : FS → Filename → Option (List Nat)
  | [], _ => none
  | (g, c) :: rest, f => if g = f then some c else fsLookup rest f

/-- Replace (or create) `f` with contents `c`. -/
def fsSet : FS → Filename → List Nat → FS
  | [], f, c => [(f, c)]
  | (g, d) :: rest, f, c => if g = f then (f, c) :: rest else (g, d) :: fsSet rest f c

/-- `details::file_helper::open`: truncating open resets the contents,
appending open creates the file only when missing. -/
def fsOpen (fs : FS) (f : Filename) (truncate : Bool) : FS :=
  if truncate then fsSet fs f []
  else
    match fsLookup fs f with
    | some _ => fs
    | none => fsSet fs f []

/-- `details::file_helper::write`: append bytes to the opened file. -/
def fsWrite (fs : FS) (f : Filename) (bytes : List Nat) : FS :=
  fsSet fs f ((fsLookup fs f).getD [] ++ bytes)

/-- `details::os::remove`: drop the file. -/
def fsRemove : FS → Filename → FS
  | [], _ => []
  | (g, d) :: rest, f => if g = f then fsRemove rest f else (g, d) :: fsRemove rest f

/-- `details::file_helper::size` of `f` on `fs` (0 when absent). -/
def fsSize (fs : FS) (f : Filename) : Nat :=
  ((fsLookup fs f).getD []).length

/-! ## Errors -/

/-- The `spdlog_ex` values thrown by the sinks: the construction-time
rotation-parameter check, and the retention-deletion failure that carries the
path that could not be removed together with the OS `errno`. -/
inductive SpdErr where
  | invalidConfig : SpdErr
  | retentionDelete (path : Filename) (osErrno : Nat) : SpdErr
deriving DecidableEq

/-! ## Daily sink -/

/-- Mutable state of `daily_file_sink` (the fields of the C++ object). -/
structure DailyState where
  base : Filename
  rotationH : Nat
  rotationM : Nat
  truncate : Bool
  maxFiles : Nat
  rotationTp : Nat
  currentFile : Filename
  filenamesQ : List Filename
deriving DecidableEq

/-- Result of one daily-sink operation: new state, new file system, and the
exception propagated to the caller (if any). -/
structure DStep where
  st : DailyState
  fs : FS
  err : Option SpdErr
deriving DecidableEq

/-- `daily_file_sink::delete_old_`. The retention queue is
`details::circular_q`, modelled from the spec (§4.3, `circular_q.h` is not
among the sources) as a bounded FIFO held oldest-first in `filenamesQ` with
capacity `maxFiles`: `full()` holds when the length reaches the capacity,
`front`/`pop_front` take the head, `push_back` appends. `removeFails f` is
the oracle for `remove_if_exists(f) != 0`, `osErrno` the accompanying
`errno`. The empty-but-full case (only possible with capacity 0) never
arises on the call paths, which guard with `max_files_ > 0`. -/
def dailyDeleteOld (st : DailyState) (fs : FS) (removeFails : Filename → Bool)
    (osErrno : Nat) : DStep :=
  let current := st.currentFile
  if st.filenamesQ.length = st.maxFiles then
    match st.filenamesQ with
    | [] => { st := { st with filenamesQ := [current] }, fs := fs, err := none }
    | old :: rest =>
      if removeFails old then
        { st := { st with filenamesQ := rest ++ [current] }, fs := fs,
          err := some (SpdErr.retentionDelete old osErrno) }
      else
        { st := { st with filenamesQ := rest ++ [current] }, fs := fsRemove fs old, err := none }
  else { st := { st with filenamesQ := st.filenamesQ ++ [current] }, fs := fs, err := none }

/-- `daily_file_sink::sink_it_`: rotate when the record's timestamp has
reached the boundary (new name from the record's time, new boundary from the
wall clock `now`), append the formatted bytes, then run retention cleanup.
`msgBytes` is the output of the external formatter. -/
def dailySinkIt (st : DailyState) (msgTime : Nat) (msgBytes : List Nat) (now : Nat)
    (fs : FS) (removeFails : Filename → Bool) (osErrno : Nat) : DStep :=
  if st.rotationTp ≤ msgTime then
    let st1 := { st with currentFile := calc_filename st.base (localtime msgTime),
                         rotationTp := nextRotationDaily now st.rotationH st.rotationM }
    let fs2 := fsWrite (fsOpen fs st1.currentFile st.truncate) st1.currentFile msgBytes
    if 0 < st.maxFiles then dailyDeleteOld st1 fs2 removeFails osErrno
    else { st := st1, fs := fs2, err := none }
  else { st := st, fs := fsWrite fs st.currentFile msgBytes, err := none }

/-- Insertion into the sorted association list that models the
`std::map<filename_t, filename_t>` of `calc_dates_to_filenames`: keys kept in
strictly increasing lexicographic order, an equal key being overwritten. -/
def mapInsert (k v : Filename) : List (Filename × Filename) → List (Filename × Filename)
  | [] => [(k, v)]
  | (k', v') :: rest =>
    if k < k' then (k, v) :: (k', v') :: rest
    else if k = k' then (k, v) :: rest
    else (k', v') :: mapInsert k v rest

/-- `daily_filename_calculator::calc_dates_to_filenames`: run
`extract_date_suffix` on every directory entry and collect the matches into a
map keyed by the date suffix. `listing` is the result of
`details::os::get_directory_files` on the base path's directory. -/
def calc_dates_to_filenames (base : Filename) (listing : List Filename) :
    List (Filename × Filename) :=
  listing.foldl
    (fun acc f =>
      let s := extract_date_suffix base f
      if s = [] then acc else mapInsert s f acc)
    []

/-- `daily_file_sink::init_filenames_q_` (queue-seeding part): keep the last
`maxFiles` entries of the date map, then push those that still pass
`path_exists` (oracle `existsP`). -/
def dailyInitQ (base : Filename) (maxFiles : Nat) (listing : List Filename)
    (existsP : Filename → Bool) : List Filename :=
  let m := calc_dates_to_filenames base listing
  let pos := if 0 < maxFiles ∧ maxFiles < m.length then m.length - maxFiles else 0
  ((m.drop pos).map Prod.snd).filter existsP

/-- `daily_file_sink::init_filenames_q_` (deletion part, used when
`delete_old_files_on_init` is set): the excess oldest entries of the map,
removed best-effort. -/
def dailyInitRemoved (base : Filename) (maxFiles : Nat) (listing : List Filename) :
    List Filename :=
  let m := calc_dates_to_filenames base listing
  let pos := if 0 < maxFiles ∧ maxFiles < m.length then m.length - maxFiles else 0
  (m.take pos).map Prod.snd

/-- `daily_file_sink::daily_file_sink`: validate the rotation parameters,
open the initial file (named from `initialFileTp`), compute the first
boundary from `now`, and when retention is bounded seed the queue from the
directory listing. -/
def dailyCtor (base : Filename) (rotationHour rotationMinute : Int) (truncate : Bool)
    (maxFiles : Nat) (deleteOldOnInit : Bool) (initialFileTp now : Nat)
    (listing : List Filename) (existsP : Filename → Bool) (fs : FS) :
    Except SpdErr (DailyState × FS) :=
  if rotationHour < 0 ∨ 23 < rotationHour ∨ rotationMinute < 0 ∨ 59 < rotationMinute then
    Except.error SpdErr.invalidConfig
  else
    let fn := calc_filename base (localtime initialFileTp)
    let fs1 := fsOpen fs fn truncate
    let q := if 0 < maxFiles then dailyInitQ base maxFiles listing existsP else []
    let fs2 :=
      if 0 < maxFiles ∧ deleteOldOnInit then
        (dailyInitRemoved base maxFiles listing).foldl fsRemove fs1
      else fs1
    Except.ok
      ({ base := base, rotationH := rotationHour.toNat, rotationM := rotationMinute.toNat,
         truncate := truncate, maxFiles := maxFiles,
         rotationTp := nextRotationDaily now rotationHour.toNat rotationMinute.toNat,
         currentFile := fn, filenamesQ := q }, fs2)

/-- `daily_file_sink::flush_`: flushes the helper, touching no sink state. -/
def dailyFlush (st : DailyState) (fs : FS) : DStep :=
  { st := st, fs := fs, err := none }

/-! ## Minute sink -/

/-- Mutable state of `minute_file_sink`. -/
structure MinuteState where
  base : Filename
  truncate : Bool
  maxFiles : Nat
  rotationM : Nat
  rotationTp : Nat
  currentFile : Filename
  filenamesQ : List Filename
  removeInitFile : Bool
deriving DecidableEq

/-- Result of `minute_file_sink::delete_old_`. -/
structure MDel where
  st : MinuteState
  fs : FS
  err : Option SpdErr
deriving DecidableEq

/-- Result of one minute-sink operation; `removedInit` records the file, if
any, deleted by the `remove_init_file_` branch during this call. -/
structure MStep where
  st : MinuteState
  fs : FS
  err : Option SpdErr
  removedInit : Option Filename
deriving DecidableEq

/-- `minute_file_sink::delete_old_` (same retention-queue model as the daily
sink's). -/
def minuteDeleteOld (st : MinuteState) (fs : FS) (removeFails : Filename → Bool)
    (osErrno : Nat) : MDel :=
  let current := st.currentFile
  if st.filenamesQ.length = st.maxFiles then
    match st.filenamesQ with
    | [] => { st := { st with filenamesQ := [current] }, fs := fs, err := none }
    | old :: rest =>
      if removeFails old then
        { st := { st with filenamesQ := rest ++ [current] }, fs := fs,
          err := some (SpdErr.retentionDelete old osErrno) }
      else
        { st := { st with filenamesQ := rest ++ [current] }, fs := fsRemove fs old, err := none }
  else { st := { st with filenamesQ := st.filenamesQ ++ [current] }, fs := fs, err := none }

/-- `minute_file_sink::sink_it_`: on rotation, first delete the
construction-time file when it is still marked throwaway, then open the new
file (named from the record's time) and recompute the boundary from `now`;
the throwaway mark is cleared on every call; the formatted bytes are then
appended and retention cleanup runs last. -/
def minuteSinkIt (st : MinuteState) (msgTime : Nat) (msgBytes : List Nat) (now : Nat)
    (fs : FS) (removeFails : Filename → Bool) (osErrno : Nat) : MStep :=
  if st.rotationTp ≤ msgTime then
    let fsA := if st.removeInitFile then fsRemove fs st.currentFile else fs
    let ri := if st.removeInitFile then some st.currentFile else none
    let newName := minute_calc_filename st.base (localtime msgTime)
    let st1 := { st with currentFile := newName,
                         rotationTp := nextRotationMinute now st.rotationM,
                         removeInitFile := false }
    let fs2 := fsWrite (fsOpen fsA newName st.truncate) newName msgBytes
    if 0 < st.maxFiles then
      let d := minuteDeleteOld st1 fs2 removeFails osErrno
      { st := d.st, fs := d.fs, err := d.err, removedInit := ri }
    else { st := st1, fs := fs2, err := none, removedInit := ri }
  else
    { st := { st with removeInitFile := false }, fs := fsWrite fs st.currentFile msgBytes,
      err := none, removedInit := none }

/-- The probing loop of `minute_file_sink::init_filenames_q_`: generate names
backwards from `now` in steps of `rotation_m_` minutes, collecting them
newest-first while they pass `path_exists`, stopping at the first gap; the
loop runs at most `maxFiles` times (the fuel). -/
def minuteProbe (base : Filename) (rotM : Nat) (existsP : Filename → Bool) :
    Nat → Nat → List Filename
  | 0, _ => []
  | fuel + 1, t =>
    let fn := minute_calc_filename base (localtime t)
    if existsP fn then fn :: minuteProbe base rotM existsP fuel (t - 60 * rotM) else []

/-- `minute_file_sink::init_filenames_q_`: the collected names are pushed in
reverse (oldest first) into the queue. -/
def minuteInitQ (base : Filename) (rotM maxFiles now : Nat) (existsP : Filename → Bool) :
    List Filename :=
  (minuteProbe base rotM existsP maxFiles now).reverse

/-- `minute_file_sink::minute_file_sink`: validate `rotation_minute`, open
the file named from `now`, mark it throwaway exactly when it has zero bytes
after the open, compute the first boundary, and when retention is bounded
seed the queue by probing. -/
def minuteCtor (base : Filename) (truncate : Bool) (maxFiles : Nat) (rotationMinute : Int)
    (now : Nat) (existsP : Filename → Bool) (fs : FS) : Except SpdErr (MinuteState × FS) :=
  if rotationMinute < 0 ∨ 59 < rotationMinute then
    Except.error SpdErr.invalidConfig
  else
    let fn := minute_calc_filename base (localtime now)
    let fs1 := fsOpen fs fn truncate
    let q := if 0 < maxFiles then minuteInitQ base rotationMinute.toNat maxFiles now existsP else []
    Except.ok
      ({ base := base, truncate := truncate, maxFiles := maxFiles,
         rotationM := rotationMinute.toNat,
         rotationTp := nextRotationMinute now rotationMinute.toNat,
         currentFile := fn, filenamesQ := q,
         removeInitFile := decide (fsSize fs1 fn = 0) }, fs1)

/-! ## Lock acquisition model

Lock-discipline model of a `write` call for the `_mt` (std::mutex) sink
variants. `std::mutex` is not recursive: acquiring it again on the thread
already holding it blocks that thread forever. -/

/-- A mutex acquisition or release on the sink's single mutex. -/
inductive LockOp where
  | acq : LockOp
  | rel : LockOp
deriving DecidableEq

/-- Sequence of mutex operations performed by `daily_file_sink::delete_old_`:
it reads the current name through the public `filename()` accessor, which
takes `std::lock_guard<Mutex> lock(base_sink<Mutex>::mutex_)`. -/
def dailyDeleteOldLockOps : List LockOp := [LockOp.acq, LockOp.rel]

/-- Mutex operations performed inside `daily_file_sink::sink_it_` for a
record that rotates (`shouldRotate`) on a sink with bounded retention
(`evict`): only the `delete_old_` path touches the mutex. -/
def dailySinkItLockOps (shouldRotate evict : Bool) : List LockOp :=
  if shouldRotate && evict then dailyDeleteOldLockOps else []

/-- Modelled from the spec: `base_sink<Mutex>::log` (`base_sink.h` is not
among the sources) wraps `sink_it_` in the sink's single exclusive lock —
spec §5: "every operation is synchronous and runs to completion while
holding a single exclusive lock scoped to that call". Full mutex trace of
one `write` on the daily `_mt` sink. -/
def dailyWriteLockTrace (shouldRotate evict : Bool) : List LockOp :=
  LockOp.acq :: dailySinkItLockOps shouldRotate evict ++ [LockOp.rel]

/-- `minute_file_sink::delete_old_` reads the name via
`file_helper_.filename()` (no lock), so a minute-sink `write` only touches
the mutex in the `base_sink::log` wrapper. -/
def minuteWriteLockTrace (_shouldRotate _evict : Bool) : List LockOp :=
  [LockOp.acq, LockOp.rel]

/-- A trace is free of self-deadlock when every acquisition of the
(non-recursive) mutex happens while the thread does not already hold it. -/
def acqOk : Nat → List LockOp → Bool
  | _, [] => true
  | held, LockOp.acq :: rest => held == 0 && acqOk (held + 1) rest
  | held, LockOp.rel :: rest => acqOk (held - 1) rest

/-- Self-deadlock freedom of a single thread's mutex trace. -/
def noSelfDeadlock (tr : List LockOp) : Bool := acqOk 0 tr

/-! ## Spec-side recovery description and key orderings (for claim C4) -/

/-- The directory entries that `extract_date_suffix` matches, paired with
their suffixes. -/
def matchedPairs (base : Filename) (listing : List Filename) : List (Filename × Filename) :=
  listing.filterMap fun f =>
    if extract_date_suffix base f = [] then none
    else some (extract_date_suffix base f, f)

/-- Insertion step of a plain insertion sort on the suffix keys. -/
def sortInsertPair (p : Filename × Filename) :
    List (Filename × Filename) → List (Filename × Filename)
  | [] => [p]
  | q :: rest => if p.1 < q.1 then p :: q :: rest else q :: sortInsertPair p rest

/-- Insertion sort by suffix key. -/
def sortPairs (l : List (Filename × Filename)) : List (Filename × Filename) :=
  l.foldr sortInsertPair []

/-- The recovery step as the claim words it: apply `extract_date_suffix` to
every directory entry, keep the matches sorted by suffix, take the most
recent `maxFiles` of them, and seed with those that still exist on disk. -/
def specRecoverDaily (base : Filename) (maxFiles : Nat) (listing : List Filename)
    (existsP : Filename → Bool) : List Filename :=
  (((sortPairs (matchedPairs base listing)).drop
      ((sortPairs (matchedPairs base listing)).length - maxFiles)).map Prod.snd).filter existsP

/-- Key-strict ordering on suffix/filename pairs. -/
def keyLt (p q : Filename × Filename) : Prop := p.1 < q.1

/-- Key weak ordering (what insertion sort guarantees). -/
def keyLe (p q : Filename × Filename) : Prop := ¬ q.1 < p.1

/-! ## Claim C3: strictness of the next rotation boundary -/

/-- Claim C3, counterexample: `rotation_minute = 0` is accepted by the
minute sink's constructor check (`0 ∈ [0,59]`), yet at `now` = 90 s past the
epoch (00:01:30) the computed boundary is 60 s (00:01:00), which is not
strictly greater than `now`. -/
theorem minute_boundary_not_future_cex :
    nextRotationMinute 90 0 = 60 ∧ ¬ (90 < nextRotationMinute 90 0) := by decide

/-- Claim C3 (amended): the daily boundary is strictly in the future for
every valid configuration, and the minute boundary is strictly in the future
whenever `rotationMinute ∈ [1,59]`; for `rotationMinute = 0` the boundary is
the (non-future) start of the current minute. -/
theorem next_boundary_future_amended :
    (∀ now rh rm : Nat, rh ≤ 23 → rm ≤ 59 → now < nextRotationDaily now rh rm) ∧
    (∀ now rm : Nat, 1 ≤ rm → rm ≤ 59 → now < nextRotationMinute now rm) := by
  constructor
  · intro now rh rm _ _
    simp only [nextRotationDaily]
    split <;> omega
  · intro now rm h1 h59
    simp only [nextRotationMinute]
    split <;> omega

/-- Witness for `next_boundary_future_amended` at concrete inputs. -/
theorem next_boundary_future_witness :
    86000 < nextRotationDaily 86000 5 30 ∧ 100 < nextRotationMinute 100 5 :=
  ⟨next_boundary_future_amended.1 86000 5 30 (by decide) (by decide),
   next_boundary_future_amended.2 100 5 (by decide) (by decide)⟩

/-! ## Character-class and splitting lemmas for the round-trip proof -/

theorem mem_natCharsAux {c : Char} :
    ∀ fuel n, c ∈ natCharsAux fuel n → ∃ d, d < 10 ∧ c = Nat.digitChar d := by
  intro fuel
  induction fuel with
  | zero => intro n h; simp [natCharsAux] at h
  | succ k ih =>
    intro n h
    match n with
    | 0 => simp [natCharsAux] at h
    | m + 1 =>
      rw [natCharsAux] at h
      rcases List.mem_append.1 h with h1 | h1
      · exact ih _ h1
      · have : c = Nat.digitChar ((m + 1) % 10) := by simpa using h1
        exact ⟨(m + 1) % 10, Nat.mod_lt _ (by norm_num), this⟩

theorem mem_natChars {c : Char} (n : Nat) (h : c ∈ natChars n) :
    ∃ d, d < 10 ∧ c = Nat.digitChar d := by
  unfold natChars at h
  split at h
  · exact ⟨0, by norm_num, by simpa using h⟩
  · exact mem_natCharsAux _ n h

theorem digitChar_good : ∀ d, d < 10 →
    Nat.digitChar d ≠ '.' ∧ Nat.digitChar d ≠ '/' ∧ Nat.digitChar d ≠ '_' := by
  intro d hd
  interval_cases d <;> exact ⟨by decide, by decide, by decide⟩

/-- Characters of a zero-padded number avoid the delimiter characters. -/
theorem mem_padNum_good {c : Char} (w n : Nat) (h : c ∈ padNum w n) :
    c ≠ '.' ∧ c ≠ '/' ∧ c ≠ '_' := by
  unfold padNum at h
  rcases List.mem_append.1 h with h1 | h1
  · have : c = '0' := List.eq_of_mem_replicate h1
    subst this; decide
  · obtain ⟨d, hd, rfl⟩ := mem_natChars n h1
    exact digitChar_good d hd

theorem natChars_ne_nil (n : Nat) : natChars n ≠ [] := by
  unfold natChars
  split
  · simp
  · match n with
    | 0 => simp_all
    | m + 1 => rw [natCharsAux]; simp

theorem dateSuffix_ne_nil (t : Tm) : dateSuffix t ≠ [] := by
  unfold dateSuffix
  intro h
  rcases List.append_eq_nil.1 h with ⟨h1, h2⟩
  exact List.cons_ne_nil _ _ h2

/-- Every character of the daily date suffix avoids `.`, `/` and `_`. -/
theorem mem_dateSuffix_good {c : Char} (t : Tm) (h : c ∈ dateSuffix t) :
    c ≠ '.' ∧ c ≠ '/' ∧ c ≠ '_' := by
  simp only [dateSuffix, List.mem_append, List.mem_cons] at h
  rcases h with ((h1 | rfl | h1) | rfl | h1) <;>
    first
      | exact mem_padNum_good _ _ h1
      | decide

theorem splitByExtAux_none_of_no_dot : ∀ l : List Char, (∀ c ∈ l, c ≠ '.') →
    splitByExtAux l = none := by
  intro l
  induction l with
  | nil => intro _; rfl
  | cons c cs ih =>
    intro h
    have hc : c ≠ '.' := h c (List.mem_cons_self c cs)
    have ht := ih fun x hx => h x (List.mem_cons_of_mem c hx)
    simp [splitByExtAux, ht, hc]

theorem splitByExtAux_append_none {m : List Char} (hm : ∀ c ∈ m, c ≠ '.') :
    ∀ l : List Char, splitByExtAux l = none → splitByExtAux (l ++ m) = none := by
  intro l
  induction l with
  | nil => intro _; exact splitByExtAux_none_of_no_dot m hm
  | cons c cs ih =>
    intro hl
    cases hsc : splitByExtAux cs with
    | some p =>
      obtain ⟨s, e⟩ := p
      simp [splitByExtAux, hsc] at hl
    | none =>
      have ht := ih hsc
      by_cases hcond : c = '.' ∧ ∀ x ∈ cs, x ≠ '/'
      · exfalso
        simp only [splitByExtAux, hsc] at hl
        rw [if_pos hcond] at hl
        exact absurd hl (by simp)
      · rw [List.cons_append]
        simp only [splitByExtAux, ht]
        rw [if_neg]
        intro ⟨hc, hall⟩
        exact hcond ⟨hc, fun x hx => hall x (List.mem_append_left m hx)⟩

theorem splitByExtAux_append_some {m : List Char} (hm : ∀ c ∈ m, c ≠ '.' ∧ c ≠ '/') :
    ∀ l : List Char, splitByExtAux (l ++ '.' :: m) = some (l, '.' :: m) := by
  intro l
  induction l with
  | nil =>
    have hnone : splitByExtAux m = none :=
      splitByExtAux_none_of_no_dot m fun c hc => (hm c hc).1
    rw [List.nil_append]
    simp only [splitByExtAux, hnone]
    rw [if_pos ⟨trivial, fun x hx => (hm x hx).2⟩]
  | cons c cs ih =>
    rw [List.cons_append, splitByExtAux, ih]

theorem splitByExtAux_none_no_slash_no_dot : ∀ m : List Char, splitByExtAux m = none →
    (∀ c ∈ m, c ≠ '/') → ∀ c ∈ m, c ≠ '.' := by
  intro m
  induction m with
  | nil => intro _ _ c hc; simp at hc
  | cons x xs ih =>
    intro hnone hsl c hc
    cases hsx : splitByExtAux xs with
    | some p =>
      obtain ⟨s, e⟩ := p
      simp [splitByExtAux, hsx] at hnone
    | none =>
      have hcond : ¬(x = '.' ∧ ∀ y ∈ xs, y ≠ '/') := by
        intro hcontra
        simp only [splitByExtAux, hsx] at hnone
        rw [if_pos hcontra] at hnone
        exact absurd hnone (by simp)
      rcases List.mem_cons.1 hc with rfl | hc2
      · intro hdot
        exact hcond ⟨hdot, fun y hy => hsl y (List.mem_cons_of_mem _ hy)⟩
      · exact ih hsx (fun y hy => hsl y (List.mem_cons_of_mem _ hy)) c hc2

theorem splitByExtAux_some_inv : ∀ l s e : List Char, splitByExtAux l = some (s, e) →
    l = s ++ e ∧ ∃ r, e = '.' :: r ∧ ∀ c ∈ r, c ≠ '.' ∧ c ≠ '/' := by
  intro l
  induction l with
  | nil => intro s e h; simp [splitByExtAux] at h
  | cons c cs ih =>
    intro s e h
    cases hsc : splitByExtAux cs with
    | some p =>
      obtain ⟨s', e'⟩ := p
      rw [splitByExtAux, hsc] at h
      simp only [Option.some.injEq, Prod.mk.injEq] at h
      obtain ⟨hs, he⟩ := h
      obtain ⟨hcs, r, hr, hgood⟩ := ih s' e' hsc
      subst hs; subst he
      exact ⟨by rw [List.cons_append, hcs], r, hr, hgood⟩
    | none =>
      rw [splitByExtAux, hsc] at h
      by_cases hcond : c = '.' ∧ ∀ x ∈ cs, x ≠ '/'
      · rw [if_pos hcond] at h
        simp only [Option.some.injEq, Prod.mk.injEq] at h
        obtain ⟨hs, he⟩ := h
        subst hs; subst he
        refine ⟨rfl, cs, by rw [hcond.1], fun x hx =>
          ⟨splitByExtAux_none_no_slash_no_dot cs hsc hcond.2 x hx, hcond.2 x hx⟩⟩
      · rw [if_neg hcond] at h
        exact absurd h (by simp)

theorem afterLast_none {c : Char} : ∀ m : List Char, (∀ x ∈ m, x ≠ c) →
    afterLast c m = none := by
  intro m
  induction m with
  | nil => intro _; rfl
  | cons x xs ih =>
    intro h
    have ht := ih fun y hy => h y (List.mem_cons_of_mem x hy)
    simp [afterLast, ht, h x (List.mem_cons_self x xs)]

theorem afterLast_append {c : Char} {m : List Char} (hm : ∀ x ∈ m, x ≠ c) :
    ∀ l : List Char, afterLast c (l ++ c :: m) = some m := by
  intro l
  induction l with
  | nil =>
    have hn := afterLast_none m hm
    simp [afterLast, hn]
  | cons x xs ih =>
    rw [List.cons_append, afterLast, ih]

theorem isPrefixOf_append_self : ∀ p r : List Char, p.isPrefixOf (p ++ r) = true := by
  intro p r
  induction p with
  | nil => cases r <;> rfl
  | cons a as ih => simp [List.isPrefixOf, ih]

/-- Re-association of the delimiter: generic form used to evaluate the
prefix test on calculator outputs. -/
theorem append_mid (s X tail : List Char) :
    (s ++ '_' :: X) ++ tail = (s ++ ['_']) ++ (X ++ tail) := by simp

theorem isPrefixOf_mid (s X tail : List Char) :
    ((s ++ ['_']).isPrefixOf ((s ++ '_' :: X) ++ tail)) = true := by
  rw [append_mid]
  exact isPrefixOf_append_self _ _

theorem isPrefixOf_mid_nil (s X : List Char) :
    ((s ++ ['_']).isPrefixOf (s ++ '_' :: X)) = true := by
  have h : s ++ '_' :: X = (s ++ ['_']) ++ X := by simp
  rw [h]
  exact isPrefixOf_append_self _ _

/-- Evaluation of `extract_date_suffix` once its three sub-computations are
known. -/
theorem extract_date_suffix_eval (b f s d : Filename)
    (h1 : (split_by_extension b).1 = s)
    (h2 : ((s ++ ['_']).isPrefixOf f) = true)
    (h3 : afterLast '_' (split_by_extension f).1 = some d) :
    extract_date_suffix b f = d := by
  simp [extract_date_suffix, filename_prefix_symbol, h1, h2, h3]

/-! ## Claim C6: the extract/calc round-trip -/

/-- Claim C6: for every base path and every timestamp, `extract_date_suffix`
applied to the output of `calc_filename` recovers exactly the zero-padded
`YYYY-MM-DD` rendering of the timestamp's calendar day (the timestamp
truncated to the daily policy's resolution), and that suffix is never the
empty no-match value. -/
theorem extract_calc_roundtrip (base : Filename) (t : Tm) :
    extract_date_suffix base (calc_filename base t) = dateSuffix t ∧ dateSuffix t ≠ [] := by
  refine ⟨?_, dateSuffix_ne_nil t⟩
  have hds : ∀ c ∈ dateSuffix t, c ≠ '.' ∧ c ≠ '/' ∧ c ≠ '_' :=
    fun c hc => mem_dateSuffix_good t hc
  have hds_nodot : ∀ c ∈ '_' :: dateSuffix t, c ≠ '.' := by
    intro c hc
    rcases List.mem_cons.1 hc with rfl | hc2
    · decide
    · exact (hds c hc2).1
  have hds_nous : ∀ x ∈ dateSuffix t, x ≠ '_' := fun x hx => (hds x hx).2.2
  cases hsp : splitByExtAux base with
  | none =>
    have hsb : split_by_extension base = (base, []) := by
      unfold split_by_extension
      rw [hsp]
    have hcalc : calc_filename base t = (base ++ '_' :: dateSuffix t) ++ [] := by
      unfold calc_filename
      rw [hsb]
      exact rfl
    have hnil : (base ++ '_' :: dateSuffix t) ++ ([] : List Char) = base ++ '_' :: dateSuffix t :=
      List.append_nil _
    have hfne : splitByExtAux (base ++ '_' :: dateSuffix t) = none :=
      splitByExtAux_append_none hds_nodot base hsp
    have hsplit_f : split_by_extension (base ++ '_' :: dateSuffix t) =
        (base ++ '_' :: dateSuffix t, []) := by
      unfold split_by_extension
      rw [hfne]
    have hafter : afterLast '_' (base ++ '_' :: dateSuffix t) = some (dateSuffix t) :=
      afterLast_append hds_nous base
    rw [hcalc, hnil]
    exact extract_date_suffix_eval base (base ++ '_' :: dateSuffix t) base (dateSuffix t)
      (by rw [hsb]) (isPrefixOf_mid_nil base (dateSuffix t))
      (by rw [hsplit_f]; exact hafter)
  | some p =>
    obtain ⟨s, e⟩ := p
    obtain ⟨hbase, r, he, hr⟩ := splitByExtAux_some_inv base s e hsp
    subst he
    have hsb : split_by_extension base = (s, '.' :: r) := by
      unfold split_by_extension
      rw [hsp]
    have hcalc : calc_filename base t = (s ++ '_' :: dateSuffix t) ++ '.' :: r := by
      unfold calc_filename
      rw [hsb]
      exact rfl
    have hfne : splitByExtAux ((s ++ '_' :: dateSuffix t) ++ '.' :: r) =
        some (s ++ '_' :: dateSuffix t, '.' :: r) :=
      splitByExtAux_append_some hr (s ++ '_' :: dateSuffix t)
    have hsplit_f : split_by_extension ((s ++ '_' :: dateSuffix t) ++ '.' :: r) =
        (s ++ '_' :: dateSuffix t, '.' :: r) := by
      unfold split_by_extension
      rw [hfne]
    have hafter : afterLast '_' (s ++ '_' :: dateSuffix t) = some (dateSuffix t) :=
      afterLast_append hds_nous s
    rw [hcalc]
    exact extract_date_suffix_eval base ((s ++ '_' :: dateSuffix t) ++ '.' :: r) s (dateSuffix t)
      (by rw [hsb]) (isPrefixOf_mid s (dateSuffix t) ('.' :: r))
      (by rw [hsplit_f]; exact hafter)

/-! ## Claim C1: queue state after a failed retention deletion -/

/-- Claim C1, counterexample: with a full queue `[a, b]` and current file `c`,
a failed deletion of `a` leaves the queue as `[b, c]` — the current file is
pushed, the popped oldest name `a` is discarded, and the queue is not
restored to its pre-pop contents `[a, b]`. -/
theorem delete_old_failure_cex :
    dailyDeleteOld
        { base := [], rotationH := 0, rotationM := 0, truncate := false, maxFiles := 2,
          rotationTp := 0, currentFile := ['c'], filenamesQ := [['a'], ['b']] }
        [] (fun _ => true) 13 =
      { st := { base := [], rotationH := 0, rotationM := 0, truncate := false, maxFiles := 2,
                rotationTp := 0, currentFile := ['c'], filenamesQ := [['b'], ['c']] },
        fs := [], err := some (SpdErr.retentionDelete ['a'] 13) } ∧
    [[('b' : Char)], ['c']] ≠ [[('a' : Char)], ['b']] := by decide

/-- Claim C1 (amended): on a failed deletion with a full queue, both sinks pop
the oldest name, push the name of the *current* file at the newest position
(so the popped entry is discarded, not restored), leave the file system
untouched, and raise the retention error carrying the failed path and the OS
error code; the next rotation will therefore attempt to delete the
next-oldest entry, not the same one. -/
theorem delete_old_failure_amended :
    (∀ (st : DailyState) (fs : FS) (removeFails : Filename → Bool) (osErrno : Nat)
        (old : Filename) (rest : List Filename),
      st.filenamesQ = old :: rest → st.filenamesQ.length = st.maxFiles →
      removeFails old = true →
        (dailyDeleteOld st fs removeFails osErrno).st.filenamesQ = rest ++ [st.currentFile] ∧
        (dailyDeleteOld st fs removeFails osErrno).err =
          some (SpdErr.retentionDelete old osErrno) ∧
        (dailyDeleteOld st fs removeFails osErrno).fs = fs) ∧
    (∀ (st : MinuteState) (fs : FS) (removeFails : Filename → Bool) (osErrno : Nat)
        (old : Filename) (rest : List Filename),
      st.filenamesQ = old :: rest → st.filenamesQ.length = st.maxFiles →
      removeFails old = true →
        (minuteDeleteOld st fs removeFails osErrno).st.filenamesQ = rest ++ [st.currentFile] ∧
        (minuteDeleteOld st fs removeFails osErrno).err =
          some (SpdErr.retentionDelete old osErrno) ∧
        (minuteDeleteOld st fs removeFails osErrno).fs = fs) := by
  constructor
  · intro st fs removeFails osErrno old rest hq hlen hf
    have hc : (old :: rest).length = st.maxFiles := hq ▸ hlen
    simp [dailyDeleteOld, hq, hc, hf]
  · intro st fs removeFails osErrno old rest hq hlen hf
    have hc : (old :: rest).length = st.maxFiles := hq ▸ hlen
    simp [minuteDeleteOld, hq, hc, hf]

/-- Witness for `delete_old_failure_amended` at concrete inputs. -/
theorem delete_old_failure_witness :
    (dailyDeleteOld
        { base := [], rotationH := 0, rotationM := 0, truncate := false, maxFiles := 2,
          rotationTp := 0, currentFile := ['c'], filenamesQ := [['a'], ['b']] }
        [] (fun _ => true) 13).st.filenamesQ = [['b'], ['c']] ∧
    (minuteDeleteOld
        { base := [], truncate := false, maxFiles := 2, rotationM := 1, rotationTp := 0,
          currentFile := ['m'], filenamesQ := [['a'], ['b']], removeInitFile := false }
        [] (fun _ => true) 7).st.filenamesQ = [['b'], ['m']] :=
  ⟨(delete_old_failure_amended.1 _ [] _ 13 ['a'] [['b']] rfl rfl rfl).1,
   (delete_old_failure_amended.2 _ [] _ 7 ['a'] [['b']] rfl rfl rfl).1⟩

/-! ## Claim C2: which name is pushed at rotation -/

theorem getLast?_append_singleton {α : Type} (l : List α) (a : α) :
    (l ++ [a]).getLast? = some a :=
  List.getLast?_concat _

/-- Whatever branch `delete_old_` takes, the name appended at the newest
queue position is the sink's current (just-opened) file. -/
theorem dailyDeleteOld_q_getLast (st : DailyState) (fs : FS) (removeFails : Filename → Bool)
    (osErrno : Nat) :
    (dailyDeleteOld st fs removeFails osErrno).st.filenamesQ.getLast? = some st.currentFile := by
  unfold dailyDeleteOld
  split
  · split
    · simp
    · split <;> simp [getLast?_append_singleton]
  · simp [getLast?_append_singleton]

theorem minuteDeleteOld_q_getLast (st : MinuteState) (fs : FS) (removeFails : Filename → Bool)
    (osErrno : Nat) :
    (minuteDeleteOld st fs removeFails osErrno).st.filenamesQ.getLast? = some st.currentFile := by
  unfold minuteDeleteOld
  split
  · split
    · simp
    · split <;> simp [getLast?_append_singleton]
  · simp [getLast?_append_singleton]

/-- Claim C2, counterexample: rotating from `log_2024-01-01.txt` to
`log_2024-01-02.txt` pushes the *newly opened* file's name onto the retention
queue; the name of the file rotated away from is not in the queue. -/
theorem rotation_push_cex :
    (dailySinkIt
        { base := ['l', 'o', 'g', '.', 't', 'x', 't'], rotationH := 0, rotationM := 0,
          truncate := false, maxFiles := 2, rotationTp := 1704153600,
          currentFile := ['l', 'o', 'g', '_', '2', '0', '2', '4', '-', '0', '1', '-', '0', '1',
            '.', 't', 'x', 't'],
          filenamesQ := [] }
        1704153600 [7] 1704153600 [] (fun _ => false) 0).st.filenamesQ =
      [['l', 'o', 'g', '_', '2', '0', '2', '4', '-', '0', '1', '-', '0', '2', '.', 't', 'x', 't']] ∧
    (['l', 'o', 'g', '_', '2', '0', '2', '4', '-', '0', '1', '-', '0', '1', '.', 't', 'x', 't'] :
        Filename) ∉
      (dailySinkIt
        { base := ['l', 'o', 'g', '.', 't', 'x', 't'], rotationH := 0, rotationM := 0,
          truncate := false, maxFiles := 2, rotationTp := 1704153600,
          currentFile := ['l', 'o', 'g', '_', '2', '0', '2', '4', '-', '0', '1', '-', '0', '1',
            '.', 't', 'x', 't'],
          filenamesQ := [] }
        1704153600 [7] 1704153600 [] (fun _ => false) 0).st.filenamesQ := by decide

/-- Claim C2 (amended): when a write rotates on a sink with bounded
retention, the name pushed onto the retention queue (its newest entry) is the
name of the newly opened current file, computed from the record's timestamp —
not the name of the file that was rotated away from. -/
theorem rotation_push_new_current_amended :
    (∀ (st : DailyState) (msgTime : Nat) (msgBytes : List Nat) (now : Nat) (fs : FS)
        (removeFails : Filename → Bool) (osErrno : Nat),
      st.rotationTp ≤ msgTime → 0 < st.maxFiles →
        (dailySinkIt st msgTime msgBytes now fs removeFails osErrno).st.filenamesQ.getLast? =
          some (calc_filename st.base (localtime msgTime))) ∧
    (∀ (st : MinuteState) (msgTime : Nat) (msgBytes : List Nat) (now : Nat) (fs : FS)
        (removeFails : Filename → Bool) (osErrno : Nat),
      st.rotationTp ≤ msgTime → 0 < st.maxFiles →
        (minuteSinkIt st msgTime msgBytes now fs removeFails osErrno).st.filenamesQ.getLast? =
          some (minute_calc_filename st.base (localtime msgTime))) := by
  constructor
  · intro st msgTime msgBytes now fs removeFails osErrno hrot hmax
    unfold dailySinkIt
    rw [if_pos hrot]
    simp only []
    rw [if_pos hmax]
    exact dailyDeleteOld_q_getLast _ _ _ _
  · intro st msgTime msgBytes now fs removeFails osErrno hrot hmax
    unfold minuteSinkIt
    rw [if_pos hrot]
    simp only []
    rw [if_pos hmax]
    exact minuteDeleteOld_q_getLast _ _ _ _

/-- Witness for `rotation_push_new_current_amended` at concrete inputs. -/
theorem rotation_push_new_current_witness :
    (dailySinkIt
        { base := ['l', 'o', 'g', '.', 't', 'x', 't'], rotationH := 0, rotationM := 0,
          truncate := false, maxFiles := 2, rotationTp := 1704153600,
          currentFile := ['x'], filenamesQ := [] }
        1704153600 [7] 1704153600 [] (fun _ => false) 0).st.filenamesQ.getLast? =
      some (calc_filename ['l', 'o', 'g', '.', 't', 'x', 't'] (localtime 1704153600)) ∧
    (minuteSinkIt
        { base := ['m', '.', 't', 'x', 't'], truncate := false, maxFiles := 1, rotationM := 1,
          rotationTp := 60, currentFile := ['y'], filenamesQ := [], removeInitFile := false }
        60 [7] 60 [] (fun _ => false) 0).st.filenamesQ.getLast? =
      some (minute_calc_filename ['m', '.', 't', 'x', 't'] (localtime 60)) :=
  ⟨rotation_push_new_current_amended.1 _ _ _ _ _ _ _ (by decide) (by decide),
   rotation_push_new_current_amended.2 _ _ _ _ _ _ _ (by decide) (by decide)⟩

/-! ## Claim C8: rotation condition; name from record time, boundary from now -/

theorem dailyDeleteOld_st_fields (st : DailyState) (fs : FS) (removeFails : Filename → Bool)
    (osErrno : Nat) :
    (dailyDeleteOld st fs removeFails osErrno).st.currentFile = st.currentFile ∧
    (dailyDeleteOld st fs removeFails osErrno).st.rotationTp = st.rotationTp := by
  unfold dailyDeleteOld
  split
  · split
    · simp
    · split <;> simp
  · simp

theorem minuteDeleteOld_st_fields (st : MinuteState) (fs : FS) (removeFails : Filename → Bool)
    (osErrno : Nat) :
    (minuteDeleteOld st fs removeFails osErrno).st.currentFile = st.currentFile ∧
    (minuteDeleteOld st fs removeFails osErrno).st.rotationTp = st.rotationTp := by
  unfold minuteDeleteOld
  split
  · split
    · simp
    · split <;> simp
  · simp

/-- Claim C8: a write rotates exactly when the record's timestamp has reached
the current boundary; on rotation the new file name is computed from the
record's timestamp while the new boundary is computed by the scheduler from
the wall-clock `now`; without rotation the sink state is untouched (minute
sink: except for clearing the throwaway mark) and the bytes are appended to
the unchanged current file. -/
theorem rotation_iff_boundary :
    (∀ (st : DailyState) (msgTime : Nat) (msgBytes : List Nat) (now : Nat) (fs : FS)
        (removeFails : Filename → Bool) (osErrno : Nat),
      (st.rotationTp ≤ msgTime →
        (dailySinkIt st msgTime msgBytes now fs removeFails osErrno).st.currentFile =
          calc_filename st.base (localtime msgTime) ∧
        (dailySinkIt st msgTime msgBytes now fs removeFails osErrno).st.rotationTp =
          nextRotationDaily now st.rotationH st.rotationM) ∧
      (msgTime < st.rotationTp →
        (dailySinkIt st msgTime msgBytes now fs removeFails osErrno).st = st ∧
        (dailySinkIt st msgTime msgBytes now fs removeFails osErrno).fs =
          fsWrite fs st.currentFile msgBytes)) ∧
    (∀ (st : MinuteState) (msgTime : Nat) (msgBytes : List Nat) (now : Nat) (fs : FS)
        (removeFails : Filename → Bool) (osErrno : Nat),
      (st.rotationTp ≤ msgTime →
        (minuteSinkIt st msgTime msgBytes now fs removeFails osErrno).st.currentFile =
          minute_calc_filename st.base (localtime msgTime) ∧
        (minuteSinkIt st msgTime msgBytes now fs removeFails osErrno).st.rotationTp =
          nextRotationMinute now st.rotationM) ∧
      (msgTime < st.rotationTp →
        (minuteSinkIt st msgTime msgBytes now fs removeFails osErrno).st =
          { st with removeInitFile := false } ∧
        (minuteSinkIt st msgTime msgBytes now fs removeFails osErrno).fs =
          fsWrite fs st.currentFile msgBytes)) := by
  constructor
  · intro st msgTime msgBytes now fs removeFails osErrno
    constructor
    · intro hrot
      unfold dailySinkIt
      rw [if_pos hrot]
      simp only []
      by_cases hmax : 0 < st.maxFiles
      · rw [if_pos hmax]
        exact ⟨(dailyDeleteOld_st_fields _ _ _ _).1, (dailyDeleteOld_st_fields _ _ _ _).2⟩
      · rw [if_neg hmax]
        exact ⟨rfl, rfl⟩
    · intro hlt
      unfold dailySinkIt
      rw [if_neg (by omega : ¬ st.rotationTp ≤ msgTime)]
      exact ⟨rfl, rfl⟩
  · intro st msgTime msgBytes now fs removeFails osErrno
    constructor
    · intro hrot
      unfold minuteSinkIt
      rw [if_pos hrot]
      simp only []
      by_cases hmax : 0 < st.maxFiles
      · rw [if_pos hmax]
        exact ⟨(minuteDeleteOld_st_fields _ _ _ _).1, (minuteDeleteOld_st_fields _ _ _ _).2⟩
      · rw [if_neg hmax]
        exact ⟨rfl, rfl⟩
    · intro hlt
      unfold minuteSinkIt
      rw [if_neg (by omega : ¬ st.rotationTp ≤ msgTime)]
      exact ⟨rfl, rfl⟩

/-- Witness for `rotation_iff_boundary` at concrete inputs (a rotating daily
write and a non-rotating minute write). -/
theorem rotation_iff_boundary_witness :
    ((dailySinkIt
        { base := ['l'], rotationH := 2, rotationM := 30, truncate := false, maxFiles := 0,
          rotationTp := 100, currentFile := ['x'], filenamesQ := [] }
        150 [1] 200 [] (fun _ => false) 0).st.currentFile =
      calc_filename ['l'] (localtime 150)) ∧
    ((minuteSinkIt
        { base := ['m'], truncate := false, maxFiles := 0, rotationM := 1, rotationTp := 100,
          currentFile := ['y'], filenamesQ := [], removeInitFile := true }
        50 [1] 200 [] (fun _ => false) 0).st =
      { base := ['m'], truncate := false, maxFiles := 0, rotationM := 1, rotationTp := 100,
        currentFile := ['y'], filenamesQ := [], removeInitFile := false }) :=
  ⟨((rotation_iff_boundary.1 _ 150 [1] 200 [] (fun _ => false) 0).1 (by decide)).1,
   ((rotation_iff_boundary.2 _ 50 [1] 200 [] (fun _ => false) 0).2 (by decide)).1⟩

/-! ## Claim C7: a retention error is raised only after the bytes are on disk -/

theorem fsLookup_fsSet_self : ∀ (fs : FS) (f : Filename) (c : List Nat),
    fsLookup (fsSet fs f c) f = some c := by
  intro fs f c
  induction fs with
  | nil => simp [fsSet, fsLookup]
  | cons p rest ih =>
    obtain ⟨g, d⟩ := p
    by_cases hg : g = f
    · simp [fsSet, fsLookup, hg]
    · simp [fsSet, fsLookup, hg, ih]

theorem fsLookup_fsWrite_self (fs : FS) (f : Filename) (b : List Nat) :
    fsLookup (fsWrite fs f b) f = some ((fsLookup fs f).getD [] ++ b) := by
  unfold fsWrite
  exact fsLookup_fsSet_self _ _ _

theorem dailyDeleteOld_err_inv (st : DailyState) (fs : FS) (removeFails : Filename → Bool)
    (osErrno : Nat) (err0 : SpdErr) :
    (dailyDeleteOld st fs removeFails osErrno).err = some err0 →
      (∃ p, err0 = SpdErr.retentionDelete p osErrno) ∧
      (dailyDeleteOld st fs removeFails osErrno).fs = fs := by
  unfold dailyDeleteOld
  split
  · split
    · intro h; simp at h
    · split
      · intro h
        simp only [Option.some.injEq] at h
        exact ⟨⟨_, h.symm⟩, rfl⟩
      · intro h; simp at h
  · intro h; simp at h

theorem minuteDeleteOld_err_inv (st : MinuteState) (fs : FS) (removeFails : Filename → Bool)
    (osErrno : Nat) (err0 : SpdErr) :
    (minuteDeleteOld st fs removeFails osErrno).err = some err0 →
      (∃ p, err0 = SpdErr.retentionDelete p osErrno) ∧
      (minuteDeleteOld st fs removeFails osErrno).fs = fs := by
  unfold minuteDeleteOld
  split
  · split
    · intro h; simp at h
    · split
      · intro h
        simp only [Option.some.injEq] at h
        exact ⟨⟨_, h.symm⟩, rfl⟩
      · intro h; simp at h
  · intro h; simp at h

/-- Claim C7: on both sinks, a write can only raise a retention-deletion
error (never any other error), and when it does, the formatted record's
bytes have already been appended to the sink's current file in the resulting
file system: a retention failure never loses the record just written. -/
theorem retention_error_after_write :
    (∀ (st : DailyState) (msgTime : Nat) (msgBytes : List Nat) (now : Nat) (fs : FS)
        (removeFails : Filename → Bool) (osErrno : Nat) (err0 : SpdErr),
      (dailySinkIt st msgTime msgBytes now fs removeFails osErrno).err = some err0 →
        (∃ p n, err0 = SpdErr.retentionDelete p n) ∧
        ∃ pre, fsLookup (dailySinkIt st msgTime msgBytes now fs removeFails osErrno).fs
            (dailySinkIt st msgTime msgBytes now fs removeFails osErrno).st.currentFile =
          some (pre ++ msgBytes)) ∧
    (∀ (st : MinuteState) (msgTime : Nat) (msgBytes : List Nat) (now : Nat) (fs : FS)
        (removeFails : Filename → Bool) (osErrno : Nat) (err0 : SpdErr),
      (minuteSinkIt st msgTime msgBytes now fs removeFails osErrno).err = some err0 →
        (∃ p n, err0 = SpdErr.retentionDelete p n) ∧
        ∃ pre, fsLookup (minuteSinkIt st msgTime msgBytes now fs removeFails osErrno).fs
            (minuteSinkIt st msgTime msgBytes now fs removeFails osErrno).st.currentFile =
          some (pre ++ msgBytes)) := by
  constructor
  · intro st msgTime msgBytes now fs removeFails osErrno err0 herr
    unfold dailySinkIt at herr ⊢
    by_cases hrot : st.rotationTp ≤ msgTime
    · rw [if_pos hrot] at herr ⊢
      simp only [] at herr ⊢
      by_cases hmax : 0 < st.maxFiles
      · rw [if_pos hmax] at herr ⊢
        obtain ⟨⟨p, hp⟩, hfs⟩ := dailyDeleteOld_err_inv _ _ _ _ _ herr
        refine ⟨⟨p, osErrno, hp⟩, ?_⟩
        rw [hfs, (dailyDeleteOld_st_fields _ _ _ _).1]
        exact ⟨_, fsLookup_fsWrite_self _ _ _⟩
      · rw [if_neg hmax] at herr
        exact absurd herr (by simp)
    · rw [if_neg hrot] at herr
      exact absurd herr (by simp)
  · intro st msgTime msgBytes now fs removeFails osErrno err0 herr
    unfold minuteSinkIt at herr ⊢
    by_cases hrot : st.rotationTp ≤ msgTime
    · rw [if_pos hrot] at herr ⊢
      simp only [] at herr ⊢
      by_cases hmax : 0 < st.maxFiles
      · rw [if_pos hmax] at herr ⊢
        obtain ⟨⟨p, hp⟩, hfs⟩ := minuteDeleteOld_err_inv _ _ _ _ _ herr
        refine ⟨⟨p, osErrno, hp⟩, ?_⟩
        rw [hfs, (minuteDeleteOld_st_fields _ _ _ _).1]
        exact ⟨_, fsLookup_fsWrite_self _ _ _⟩
      · rw [if_neg hmax] at herr
        exact absurd herr (by simp)
    · rw [if_neg hrot] at herr
      exact absurd herr (by simp)

/-- Witness for `retention_error_after_write`: a concrete failing eviction on
each sink, with the freshly written byte visible in the resulting file
system. -/
theorem retention_error_after_write_witness :
    ((∃ p n, SpdErr.retentionDelete ['q'] 13 = SpdErr.retentionDelete p n) ∧
      ∃ pre, fsLookup (dailySinkIt
          { base := ['l'], rotationH := 0, rotationM := 0, truncate := false, maxFiles := 1,
            rotationTp := 0, currentFile := ['x'], filenamesQ := [['q']] }
          0 [7] 0 [] (fun _ => true) 13).fs
        (dailySinkIt
          { base := ['l'], rotationH := 0, rotationM := 0, truncate := false, maxFiles := 1,
            rotationTp := 0, currentFile := ['x'], filenamesQ := [['q']] }
          0 [7] 0 [] (fun _ => true) 13).st.currentFile = some (pre ++ [7])) ∧
    ((∃ p n, SpdErr.retentionDelete ['q'] 13 = SpdErr.retentionDelete p n) ∧
      ∃ pre, fsLookup (minuteSinkIt
          { base := ['m'], truncate := false, maxFiles := 1, rotationM := 1, rotationTp := 0,
            currentFile := ['y'], filenamesQ := [['q']], removeInitFile := false }
          0 [7] 0 [] (fun _ => true) 13).fs
        (minuteSinkIt
          { base := ['m'], truncate := false, maxFiles := 1, rotationM := 1, rotationTp := 0,
            currentFile := ['y'], filenamesQ := [['q']], removeInitFile := false }
          0 [7] 0 [] (fun _ => true) 13).st.currentFile = some (pre ++ [7])) :=
  ⟨retention_error_after_write.1 _ 0 [7] 0 [] (fun _ => true) 13
      (SpdErr.retentionDelete ['q'] 13) (by decide),
   retention_error_after_write.2 _ 0 [7] 0 [] (fun _ => true) 13
      (SpdErr.retentionDelete ['q'] 13) (by decide)⟩

/-! ## File-system lemmas for the throwaway-file claim -/

theorem fsLookup_fsSet_ne : ∀ (fs : FS) (g f : Filename) (c : List Nat), g ≠ f →
    fsLookup (fsSet fs g c) f = fsLookup fs f := by
  intro fs g f c hne
  induction fs with
  | nil => simp [fsSet, fsLookup, hne]
  | cons p rest ih =>
    obtain ⟨k, d⟩ := p
    by_cases hk : k = g
    · subst hk
      simp [fsSet, fsLookup, hne]
    · simp [fsSet, fsLookup, hk, ih]

theorem fsLookup_fsOpen_ne (fs : FS) (g f : Filename) (truncate : Bool) (hne : g ≠ f) :
    fsLookup (fsOpen fs g truncate) f = fsLookup fs f := by
  unfold fsOpen
  split
  · exact fsLookup_fsSet_ne _ _ _ _ hne
  · split
    · rfl
    · exact fsLookup_fsSet_ne _ _ _ _ hne

theorem fsLookup_fsWrite_ne (fs : FS) (g f : Filename) (b : List Nat) (hne : g ≠ f) :
    fsLookup (fsWrite fs g b) f = fsLookup fs f :=
  fsLookup_fsSet_ne _ _ _ _ hne

theorem fsRemove_lookup_self : ∀ (fs : FS) (f : Filename),
    fsLookup (fsRemove fs f) f = none := by
  intro fs f
  induction fs with
  | nil => rfl
  | cons p rest ih =>
    obtain ⟨k, d⟩ := p
    by_cases hk : k = f
    · simp [fsRemove, hk, ih]
    · simp [fsRemove, fsLookup, hk, ih]

theorem fsLookup_fsRemove_none (f g : Filename) : ∀ fs : FS, fsLookup fs f = none →
    fsLookup (fsRemove fs g) f = none := by
  intro fs
  induction fs with
  | nil => intro _; rfl
  | cons p rest ih =>
    obtain ⟨k, d⟩ := p
    intro h
    rw [fsLookup] at h
    by_cases hk : k = f
    · rw [if_pos hk] at h
      exact absurd h (by simp)
    · rw [if_neg hk] at h
      by_cases hkg : k = g
      · simp [fsRemove, hkg, ih h]
      · simp [fsRemove, fsLookup, hkg, hk, ih h]

theorem fsOpen_lookup_self (fs : FS) (f : Filename) (truncate : Bool) :
    fsLookup (fsOpen fs f truncate) f =
      some (if truncate = true then [] else (fsLookup fs f).getD []) := by
  unfold fsOpen
  by_cases htr : truncate = true
  · rw [if_pos htr, if_pos htr]
    exact fsLookup_fsSet_self _ _ _
  · rw [if_neg htr, if_neg htr]
    cases hl : fsLookup fs f with
    | some c => simp [hl]
    | none => simp [fsLookup_fsSet_self]

/-! ## Claim C9: the minute sink's throwaway construction file -/

theorem minuteDeleteOld_st_removeInit (st : MinuteState) (fs : FS)
    (removeFails : Filename → Bool) (osErrno : Nat) :
    (minuteDeleteOld st fs removeFails osErrno).st.removeInitFile = st.removeInitFile := by
  unfold minuteDeleteOld
  split
  · split
    · simp
    · split <;> simp
  · simp

theorem minuteDeleteOld_fs_cases (st : MinuteState) (fs : FS) (removeFails : Filename → Bool)
    (osErrno : Nat) :
    (minuteDeleteOld st fs removeFails osErrno).fs = fs ∨
    ∃ x, (minuteDeleteOld st fs removeFails osErrno).fs = fsRemove fs x := by
  unfold minuteDeleteOld
  split
  · split
    · left; rfl
    · split
      · left; rfl
      · right; exact ⟨_, rfl⟩
  · left; rfl

/-- The file opened by `file_helper_.open` reads as zero-size exactly when
its contents after the open are empty. -/
theorem fsOpen_zero_size_iff (fs : FS) (f : Filename) (tr : Bool) :
    decide (fsSize (fsOpen fs f tr) f = 0) = true ↔ fsLookup (fsOpen fs f tr) f = some [] := by
  have hopen := fsOpen_lookup_self fs f tr
  constructor
  · intro hd
    have hlen : fsSize (fsOpen fs f tr) f = 0 := of_decide_eq_true hd
    unfold fsSize at hlen
    rw [hopen, Option.getD_some] at hlen
    rw [hopen, List.length_eq_zero.mp hlen]
  · intro hl
    apply decide_eq_true
    unfold fsSize
    rw [hl]
    rfl

/-- Claim C9: the minute sink marks the construction-time file throwaway
exactly when it has zero bytes after the open; on a rotation with the mark
still set the sink deletes that file outright (it is gone from the file
system, and the name pushed into the retention queue is the new file's, per
`minuteDeleteOld_q_getLast`); the mark is cleared by every write; and a
write that starts with the mark cleared never performs this deletion. -/
theorem minute_throwaway_file :
    (∀ (base : Filename) (truncate : Bool) (maxFiles : Nat) (rotationMinute : Int) (now : Nat)
        (existsP : Filename → Bool) (fs : FS),
      0 ≤ rotationMinute → rotationMinute ≤ 59 →
        ∃ st1 fs1,
          minuteCtor base truncate maxFiles rotationMinute now existsP fs =
            Except.ok (st1, fs1) ∧
          (st1.removeInitFile = true ↔ fsLookup fs1 st1.currentFile = some [])) ∧
    (∀ (st : MinuteState) (msgTime : Nat) (msgBytes : List Nat) (now : Nat) (fs : FS)
        (removeFails : Filename → Bool) (osErrno : Nat),
      st.rotationTp ≤ msgTime → st.removeInitFile = true →
        (minuteSinkIt st msgTime msgBytes now fs removeFails osErrno).removedInit =
          some st.currentFile ∧
        (st.currentFile ≠ minute_calc_filename st.base (localtime msgTime) →
          fsLookup (minuteSinkIt st msgTime msgBytes now fs removeFails osErrno).fs
            st.currentFile = none)) ∧
    (∀ (st : MinuteState) (msgTime : Nat) (msgBytes : List Nat) (now : Nat) (fs : FS)
        (removeFails : Filename → Bool) (osErrno : Nat),
      (minuteSinkIt st msgTime msgBytes now fs removeFails osErrno).st.removeInitFile = false) ∧
    (∀ (st : MinuteState) (msgTime : Nat) (msgBytes : List Nat) (now : Nat) (fs : FS)
        (removeFails : Filename → Bool) (osErrno : Nat),
      st.removeInitFile = false →
        (minuteSinkIt st msgTime msgBytes now fs removeFails osErrno).removedInit = none) := by
  refine ⟨?_, ?_, ?_, ?_⟩
  · intro base truncate maxFiles rotationMinute now existsP fs h0 h59
    unfold minuteCtor
    rw [if_neg (by omega : ¬(rotationMinute < 0 ∨ 59 < rotationMinute))]
    exact ⟨_, _, rfl, fsOpen_zero_size_iff fs _ truncate⟩
  · intro st msgTime msgBytes now fs removeFails osErrno hrot hmark
    unfold minuteSinkIt
    rw [if_pos hrot]
    simp only [hmark, eq_self_iff_true, if_true]
    by_cases hmax : 0 < st.maxFiles
    · rw [if_pos hmax]
      refine ⟨rfl, ?_⟩
      intro hne
      have hne' : minute_calc_filename st.base (localtime msgTime) ≠ st.currentFile :=
        Ne.symm hne
      have h2 : fsLookup
          (fsWrite (fsOpen (fsRemove fs st.currentFile)
              (minute_calc_filename st.base (localtime msgTime)) st.truncate)
            (minute_calc_filename st.base (localtime msgTime)) msgBytes)
          st.currentFile = none := by
        rw [fsLookup_fsWrite_ne _ _ _ _ hne', fsLookup_fsOpen_ne _ _ _ _ hne']
        exact fsRemove_lookup_self _ _
      rcases minuteDeleteOld_fs_cases
          { st with currentFile := minute_calc_filename st.base (localtime msgTime),
                    rotationTp := nextRotationMinute now st.rotationM,
                    removeInitFile := false }
          (fsWrite (fsOpen (fsRemove fs st.currentFile)
              (minute_calc_filename st.base (localtime msgTime)) st.truncate)
            (minute_calc_filename st.base (localtime msgTime)) msgBytes)
          removeFails osErrno with hc | ⟨x, hc⟩
      · show fsLookup _ st.currentFile = none
        rw [hc]
        exact h2
      · show fsLookup _ st.currentFile = none
        rw [hc]
        exact fsLookup_fsRemove_none _ _ _ h2
    · rw [if_neg hmax]
      refine ⟨rfl, ?_⟩
      intro hne
      have hne' : minute_calc_filename st.base (localtime msgTime) ≠ st.currentFile :=
        Ne.symm hne
      show fsLookup
          (fsWrite (fsOpen (fsRemove fs st.currentFile)
              (minute_calc_filename st.base (localtime msgTime)) st.truncate)
            (minute_calc_filename st.base (localtime msgTime)) msgBytes)
          st.currentFile = none
      rw [fsLookup_fsWrite_ne _ _ _ _ hne', fsLookup_fsOpen_ne _ _ _ _ hne']
      exact fsRemove_lookup_self _ _
  · intro st msgTime msgBytes now fs removeFails osErrno
    unfold minuteSinkIt
    by_cases hrot : st.rotationTp ≤ msgTime
    · rw [if_pos hrot]
      simp only []
      by_cases hmax : 0 < st.maxFiles
      · rw [if_pos hmax]
        show (minuteDeleteOld _ _ _ _).st.removeInitFile = false
        rw [minuteDeleteOld_st_removeInit]
      · rw [if_neg hmax]
    · rw [if_neg hrot]
  · intro st msgTime msgBytes now fs removeFails osErrno hmark
    unfold minuteSinkIt
    by_cases hrot : st.rotationTp ≤ msgTime
    · rw [if_pos hrot]
      simp only [hmark]
      by_cases hmax : 0 < st.maxFiles
      · rw [if_pos hmax]
        rfl
      · rw [if_neg hmax]
        rfl
    · rw [if_neg hrot]

/-- Witness for `minute_throwaway_file` at concrete inputs. -/
theorem minute_throwaway_file_witness :
    (∃ st1 fs1,
        minuteCtor ['m'] true 0 1 60 (fun _ => false) [] = Except.ok (st1, fs1) ∧
        (st1.removeInitFile = true ↔ fsLookup fs1 st1.currentFile = some [])) ∧
    (minuteSinkIt
        { base := ['m'], truncate := false, maxFiles := 0, rotationM := 1, rotationTp := 0,
          currentFile := ['y'], filenamesQ := [], removeInitFile := true }
        60 [7] 60 [] (fun _ => false) 0).removedInit = some ['y'] :=
  ⟨minute_throwaway_file.1 ['m'] true 0 1 60 (fun _ => false) [] (by decide) (by decide),
   (minute_throwaway_file.2.1 _ 60 [7] 60 [] (fun _ => false) 0 (by decide) rfl).1⟩

/-! ## Claim C10: out-of-range policy parameters fail only at construction -/

theorem dailyDeleteOld_err_shape (st : DailyState) (fs : FS) (removeFails : Filename → Bool)
    (osErrno : Nat) :
    (dailyDeleteOld st fs removeFails osErrno).err = none ∨
    ∃ p n, (dailyDeleteOld st fs removeFails osErrno).err = some (SpdErr.retentionDelete p n) := by
  unfold dailyDeleteOld
  split
  · split
    · left; rfl
    · split
      · right; exact ⟨_, _, rfl⟩
      · left; rfl
  · left; rfl

theorem minuteDeleteOld_err_shape (st : MinuteState) (fs : FS) (removeFails : Filename → Bool)
    (osErrno : Nat) :
    (minuteDeleteOld st fs removeFails osErrno).err = none ∨
    ∃ p n, (minuteDeleteOld st fs removeFails osErrno).err =
      some (SpdErr.retentionDelete p n) := by
  unfold minuteDeleteOld
  split
  · split
    · left; rfl
    · split
      · right; exact ⟨_, _, rfl⟩
      · left; rfl
  · left; rfl

/-- Claim C10: each sink's constructor raises the invalid-configuration error
exactly when a policy parameter is out of range (daily: hour outside [0,23]
or minute outside [0,59]; minute sink: rotationMinute outside [0,59]); and a
write never raises that error — its only possible error is the
retention-deletion one. -/
theorem invalid_config_at_construction :
    (∀ (base : Filename) (rotationHour rotationMinute : Int) (truncate : Bool) (maxFiles : Nat)
        (deleteOldOnInit : Bool) (initialFileTp now : Nat) (listing : List Filename)
        (existsP : Filename → Bool) (fs : FS),
      dailyCtor base rotationHour rotationMinute truncate maxFiles deleteOldOnInit initialFileTp
          now listing existsP fs = Except.error SpdErr.invalidConfig ↔
        (rotationHour < 0 ∨ 23 < rotationHour ∨ rotationMinute < 0 ∨ 59 < rotationMinute)) ∧
    (∀ (base : Filename) (truncate : Bool) (maxFiles : Nat) (rotationMinute : Int) (now : Nat)
        (existsP : Filename → Bool) (fs : FS),
      minuteCtor base truncate maxFiles rotationMinute now existsP fs =
          Except.error SpdErr.invalidConfig ↔
        (rotationMinute < 0 ∨ 59 < rotationMinute)) ∧
    (∀ (st : DailyState) (msgTime : Nat) (msgBytes : List Nat) (now : Nat) (fs : FS)
        (removeFails : Filename → Bool) (osErrno : Nat),
      (dailySinkIt st msgTime msgBytes now fs removeFails osErrno).err = none ∨
      ∃ p n, (dailySinkIt st msgTime msgBytes now fs removeFails osErrno).err =
        some (SpdErr.retentionDelete p n)) ∧
    (∀ (st : MinuteState) (msgTime : Nat) (msgBytes : List Nat) (now : Nat) (fs : FS)
        (removeFails : Filename → Bool) (osErrno : Nat),
      (minuteSinkIt st msgTime msgBytes now fs removeFails osErrno).err = none ∨
      ∃ p n, (minuteSinkIt st msgTime msgBytes now fs removeFails osErrno).err =
        some (SpdErr.retentionDelete p n)) := by
  refine ⟨?_, ?_, ?_, ?_⟩
  · intro base rotationHour rotationMinute truncate maxFiles deleteOldOnInit initialFileTp now
      listing existsP fs
    unfold dailyCtor
    by_cases h : rotationHour < 0 ∨ 23 < rotationHour ∨ rotationMinute < 0 ∨ 59 < rotationMinute
    · rw [if_pos h]
      exact iff_of_true rfl h
    · rw [if_neg h]
      exact iff_of_false (by simp) h
  · intro base truncate maxFiles rotationMinute now existsP fs
    unfold minuteCtor
    by_cases h : rotationMinute < 0 ∨ 59 < rotationMinute
    · rw [if_pos h]
      exact iff_of_true rfl h
    · rw [if_neg h]
      exact iff_of_false (by simp) h
  · intro st msgTime msgBytes now fs removeFails osErrno
    unfold dailySinkIt
    by_cases hrot : st.rotationTp ≤ msgTime
    · rw [if_pos hrot]
      simp only []
      by_cases hmax : 0 < st.maxFiles
      · rw [if_pos hmax]
        exact dailyDeleteOld_err_shape _ _ _ _
      · rw [if_neg hmax]
        left; rfl
    · rw [if_neg hrot]
      left; rfl
  · intro st msgTime msgBytes now fs removeFails osErrno
    unfold minuteSinkIt
    by_cases hrot : st.rotationTp ≤ msgTime
    · rw [if_pos hrot]
      simp only []
      by_cases hmax : 0 < st.maxFiles
      · rw [if_pos hmax]
        exact minuteDeleteOld_err_shape _ _ _ _
      · rw [if_neg hmax]
        left; rfl
    · rw [if_neg hrot]
      left; rfl

/-- Witness for `invalid_config_at_construction`: a concrete out-of-range
construction on each sink raises the invalid-configuration error. -/
theorem invalid_config_at_construction_witness :
    dailyCtor ['l'] 24 0 false 0 false 0 0 [] (fun _ => false) [] =
      Except.error SpdErr.invalidConfig ∧
    minuteCtor ['m'] false 0 60 0 (fun _ => false) [] = Except.error SpdErr.invalidConfig :=
  ⟨(invalid_config_at_construction.1 ['l'] 24 0 false 0 false 0 0 [] (fun _ => false) []).mpr
      (by decide),
   (invalid_config_at_construction.2.1 ['m'] false 0 60 0 (fun _ => false) []).mpr (by decide)⟩

/-! ## Claim C5: lock discipline of a write -/

/-- Claim C5 (evidence of the code bug): a rotating write with bounded
retention on the daily `_mt` sink re-acquires the sink's non-recursive mutex
inside `delete_old_` (through the public `filename()` accessor) while
`base_sink::log` already holds it, so the trace is not self-deadlock free
and the write never completes; a non-rotating daily write and every minute
write keep the single-acquisition discipline. -/
theorem daily_write_self_deadlock :
    noSelfDeadlock (dailyWriteLockTrace true true) = false ∧
    noSelfDeadlock (dailyWriteLockTrace true false) = true ∧
    noSelfDeadlock (dailyWriteLockTrace false true) = true ∧
    noSelfDeadlock (dailyWriteLockTrace false false) = true ∧
    (∀ sr ev : Bool, noSelfDeadlock (minuteWriteLockTrace sr ev) = true) := by decide

/-! ## Claim C4: construction-time recovery -/

/-- Claim C4, counterexample (minute sink): recovery does not list the
directory; it probes generated names backwards from `now` and stops at the
first gap. With `rotationMinute = 1`, `maxFiles = 2`, and matching files on
disk for `now` and `now − 2 min` but not `now − 1 min`, the file from
`now − 2 min` exists and matches yet is not seeded, even though the queue
holds fewer than `maxFiles` entries. -/
theorem minute_recovery_not_directory_cex :
    minuteInitQ ['m', '.', 't', 'x', 't'] 1 2 1704067200
        (fun f =>
          decide (f = minute_calc_filename ['m', '.', 't', 'x', 't'] (localtime 1704067200)) ||
          decide (f = minute_calc_filename ['m', '.', 't', 'x', 't'] (localtime 1704067080))) =
      [minute_calc_filename ['m', '.', 't', 'x', 't'] (localtime 1704067200)] ∧
    minute_calc_filename ['m', '.', 't', 'x', 't'] (localtime 1704067080) ∉
      minuteInitQ ['m', '.', 't', 'x', 't'] 1 2 1704067200
        (fun f =>
          decide (f = minute_calc_filename ['m', '.', 't', 'x', 't'] (localtime 1704067200)) ||
          decide (f = minute_calc_filename ['m', '.', 't', 'x', 't'] (localtime 1704067080))) ∧
    (minuteInitQ ['m', '.', 't', 'x', 't'] 1 2 1704067200
        (fun f =>
          decide (f = minute_calc_filename ['m', '.', 't', 'x', 't'] (localtime 1704067200)) ||
          decide (f = minute_calc_filename ['m', '.', 't', 'x', 't'] (localtime 1704067080)))).length
      < 2 := by decide

theorem mapInsert_mem : ∀ (l : List (Filename × Filename)) (x : Filename × Filename)
    (k v : Filename), x ∈ mapInsert k v l → x = (k, v) ∨ x ∈ l := by
  intro l
  induction l with
  | nil =>
    intro x k v hx
    simp [mapInsert] at hx
    exact Or.inl hx
  | cons q rest ih =>
    intro x k v hx
    obtain ⟨k', v'⟩ := q
    unfold mapInsert at hx
    by_cases h1 : k < k'
    · rw [if_pos h1] at hx
      rcases List.mem_cons.1 hx with rfl | hx2
      · exact Or.inl rfl
      · exact Or.inr hx2
    · rw [if_neg h1] at hx
      by_cases h2 : k = k'
      · rw [if_pos h2] at hx
        rcases List.mem_cons.1 hx with rfl | hx2
        · exact Or.inl rfl
        · exact Or.inr (List.mem_cons_of_mem _ hx2)
      · rw [if_neg h2] at hx
        rcases List.mem_cons.1 hx with rfl | hx2
        · exact Or.inr (List.mem_cons_self _ _)
        · rcases ih x k v hx2 with h | h
          · exact Or.inl h
          · exact Or.inr (List.mem_cons_of_mem _ h)

theorem mapInsert_sorted : ∀ (l : List (Filename × Filename)) (k v : Filename),
    List.Pairwise keyLt l → List.Pairwise keyLt (mapInsert k v l) := by
  intro l
  induction l with
  | nil => intro k v _; simp [mapInsert]
  | cons q rest ih =>
    intro k v hp
    obtain ⟨k', v'⟩ := q
    rw [List.pairwise_cons] at hp
    obtain ⟨hhead, htail⟩ := hp
    unfold mapInsert
    by_cases h1 : k < k'
    · rw [if_pos h1]
      refine List.Pairwise.cons ?_ (List.Pairwise.cons hhead htail)
      intro x hx
      rcases List.mem_cons.1 hx with rfl | hx2
      · exact h1
      · exact lt_trans h1 (hhead x hx2)
    · rw [if_neg h1]
      by_cases h2 : k = k'
      · rw [if_pos h2]
        refine List.Pairwise.cons ?_ htail
        intro x hx
        rw [h2]
        exact hhead x hx
      · rw [if_neg h2]
        refine List.Pairwise.cons ?_ (ih k v htail)
        intro x hx
        rcases mapInsert_mem rest x k v hx with rfl | hx2
        · rcases lt_trichotomy k k' with h | h | h
          · exact absurd h h1
          · exact absurd h h2
          · exact h
        · exact hhead x hx2

theorem mapInsert_perm : ∀ (l : List (Filename × Filename)) (k v : Filename),
    k ∉ l.map Prod.fst → List.Perm (mapInsert k v l) ((k, v) :: l) := by
  intro l
  induction l with
  | nil => intro k v _; rfl
  | cons q rest ih =>
    intro k v hk
    obtain ⟨k', v'⟩ := q
    simp only [List.map_cons, List.mem_cons] at hk
    push_neg at hk
    obtain ⟨hne, hrest⟩ := hk
    unfold mapInsert
    by_cases h1 : k < k'
    · rw [if_pos h1]
    · rw [if_neg h1, if_neg hne]
      exact (List.Perm.cons _ (ih k v hrest)).trans (List.Perm.swap _ _ _)

theorem foldl_mapInsert_perm : ∀ (ps acc : List (Filename × Filename)),
    (ps.map Prod.fst ++ acc.map Prod.fst).Nodup →
    List.Perm (ps.foldl (fun a p => mapInsert p.1 p.2 a) acc) (ps ++ acc) := by
  intro ps
  induction ps with
  | nil =>
    intro acc _
    simp only [List.foldl_nil, List.nil_append]
    exact List.Perm.refl _
  | cons p ps ih =>
    intro acc hnd
    obtain ⟨k, v⟩ := p
    simp only [List.map_cons, List.cons_append, List.nodup_cons] at hnd
    obtain ⟨hk, hnd2⟩ := hnd
    have hkacc : k ∉ acc.map Prod.fst := fun h => hk (List.mem_append_right _ h)
    have hins : List.Perm (mapInsert k v acc) ((k, v) :: acc) := mapInsert_perm acc k v hkacc
    rw [List.foldl_cons]
    have hkeys : List.Perm ((mapInsert k v acc).map Prod.fst) (k :: acc.map Prod.fst) := by
      have h0 := hins.map Prod.fst
      simpa using h0
    have hnd3 : (ps.map Prod.fst ++ (mapInsert k v acc).map Prod.fst).Nodup := by
      refine ((List.Perm.append_left (ps.map Prod.fst) hkeys).symm).nodup ?_
      have h4 : List.Perm (ps.map Prod.fst ++ k :: acc.map Prod.fst)
          (k :: (ps.map Prod.fst ++ acc.map Prod.fst)) := List.perm_middle
      refine h4.symm.nodup ?_
      exact List.nodup_cons.2 ⟨hk, hnd2⟩
    have step := ih (mapInsert k v acc) hnd3
    refine step.trans ?_
    refine (List.Perm.append_left ps hins).trans ?_
    exact List.perm_middle

theorem foldl_mapInsert_sorted : ∀ (ps acc : List (Filename × Filename)),
    List.Pairwise keyLt acc →
    List.Pairwise keyLt (ps.foldl (fun a p => mapInsert p.1 p.2 a) acc) := by
  intro ps
  induction ps with
  | nil => intro acc h; simpa using h
  | cons p ps ih =>
    intro acc h
    rw [List.foldl_cons]
    exact ih _ (mapInsert_sorted acc p.1 p.2 h)

theorem sortInsertPair_perm : ∀ (l : List (Filename × Filename)) (p : Filename × Filename),
    List.Perm (sortInsertPair p l) (p :: l) := by
  intro l
  induction l with
  | nil => intro p; rfl
  | cons q rest ih =>
    intro p
    unfold sortInsertPair
    by_cases h : p.1 < q.1
    · rw [if_pos h]
    · rw [if_neg h]
      exact (List.Perm.cons q (ih p)).trans (List.Perm.swap _ _ _)

theorem sortPairs_perm : ∀ l : List (Filename × Filename), List.Perm (sortPairs l) l := by
  intro l
  induction l with
  | nil => rfl
  | cons p rest ih =>
    exact (sortInsertPair_perm _ p).trans (List.Perm.cons p ih)

theorem sortInsertPair_sorted : ∀ (l : List (Filename × Filename)) (p : Filename × Filename),
    List.Pairwise keyLe l → List.Pairwise keyLe (sortInsertPair p l) := by
  intro l
  induction l with
  | nil => intro p _; simp [sortInsertPair, keyLe]
  | cons q rest ih =>
    intro p hp
    rw [List.pairwise_cons] at hp
    obtain ⟨hq, hrest⟩ := hp
    unfold sortInsertPair
    by_cases h : p.1 < q.1
    · rw [if_pos h]
      refine List.Pairwise.cons ?_ (List.Pairwise.cons hq hrest)
      intro x hx
      rcases List.mem_cons.1 hx with rfl | hx2
      · exact lt_asymm h
      · intro hlt
        exact hq x hx2 (lt_trans hlt h)
    · rw [if_neg h]
      refine List.Pairwise.cons ?_ (ih p hrest)
      intro x hx
      have hmem : x = p ∨ x ∈ rest := by
        have h5 := (sortInsertPair_perm rest p).mem_iff.1 hx
        exact List.mem_cons.1 h5
      rcases hmem with rfl | hx2
      · exact h
      · exact hq x hx2

theorem sortPairs_sorted : ∀ l : List (Filename × Filename),
    List.Pairwise keyLe (sortPairs l) := by
  intro l
  induction l with
  | nil => exact List.Pairwise.nil
  | cons p rest ih => exact sortInsertPair_sorted _ p ih

theorem calc_dates_fold_aux (base : Filename) : ∀ (listing : List Filename)
    (acc : List (Filename × Filename)),
    List.foldl
        (fun acc f =>
          if extract_date_suffix base f = [] then acc
          else mapInsert (extract_date_suffix base f) f acc)
        acc listing =
      List.foldl (fun a p => mapInsert p.1 p.2 a) acc (matchedPairs base listing) := by
  intro listing
  induction listing with
  | nil => intro acc; rfl
  | cons f fs ih =>
    intro acc
    by_cases hs : extract_date_suffix base f = [] <;>
      simp [matchedPairs, hs, ih, List.foldl_cons]

theorem calc_dates_eq_fold (base : Filename) (listing : List Filename) :
    calc_dates_to_filenames base listing =
      List.foldl (fun a p => mapInsert p.1 p.2 a) [] (matchedPairs base listing) :=
  calc_dates_fold_aux base listing []

/-- Claim C4 (amended, daily part): for a daily sink with bounded retention,
when the matched directory entries carry pairwise-distinct date suffixes, the
construction-time recovery is exactly the claim's description — match every
entry with `extract_date_suffix`, sort the matches by suffix, keep the most
recent `maxFiles`, and seed the queue with those that still exist on disk,
silently skipping missing ones. (The minute sink's recovery does not scan
the directory at all; see the counterexample.) -/
theorem dailyInitQ_eq_spec (base : Filename) (maxFiles : Nat) (listing : List Filename)
    (existsP : Filename → Bool) (hmax : 0 < maxFiles)
    (hnd : ((matchedPairs base listing).map Prod.fst).Nodup) :
    dailyInitQ base maxFiles listing existsP = specRecoverDaily base maxFiles listing existsP := by
  have hperm1 : List.Perm (calc_dates_to_filenames base listing) (matchedPairs base listing) := by
    rw [calc_dates_eq_fold]
    have h0 := foldl_mapInsert_perm (matchedPairs base listing) [] (by simpa using hnd)
    simpa using h0
  have hsorted1 : List.Pairwise keyLt (calc_dates_to_filenames base listing) := by
    rw [calc_dates_eq_fold]
    exact foldl_mapInsert_sorted _ [] List.Pairwise.nil
  have hperm2 : List.Perm (sortPairs (matchedPairs base listing)) (matchedPairs base listing) :=
    sortPairs_perm _
  have hnd2 : ((sortPairs (matchedPairs base listing)).map Prod.fst).Nodup :=
    ((hperm2.map Prod.fst).symm).nodup hnd
  have hsorted2 : List.Pairwise keyLt (sortPairs (matchedPairs base listing)) := by
    have hle := sortPairs_sorted (matchedPairs base listing)
    have hne : List.Pairwise (fun p q : Filename × Filename => p.1 ≠ q.1)
        (sortPairs (matchedPairs base listing)) := by
      have h6 := List.pairwise_map.1 hnd2
      exact h6
    refine (hle.and hne).imp ?_
    rintro a b ⟨h7, h8⟩
    rcases lt_trichotomy a.1 b.1 with h9 | h9 | h9
    · exact h9
    · exact absurd h9 h8
    · exact absurd h9 h7
  have heq : calc_dates_to_filenames base listing = sortPairs (matchedPairs base listing) := by
    haveI : IsAntisymm (Filename × Filename) keyLt := ⟨fun a b h1 h2 => (lt_asymm h1 h2).elim⟩
    exact List.eq_of_perm_of_sorted (hperm1.trans hperm2.symm) hsorted1 hsorted2
  unfold dailyInitQ specRecoverDaily
  rw [heq]
  simp only []
  have hpos : (if 0 < maxFiles ∧ maxFiles < (sortPairs (matchedPairs base listing)).length then
      (sortPairs (matchedPairs base listing)).length - maxFiles else 0) =
      (sortPairs (matchedPairs base listing)).length - maxFiles := by
    by_cases hlt : maxFiles < (sortPairs (matchedPairs base listing)).length
    · rw [if_pos ⟨hmax, hlt⟩]
    · rw [if_neg fun hand => hlt hand.2]
      omega
  rw [hpos]

/-- Witness for `dailyInitQ_eq_spec` at a concrete directory listing: two
matching files (one of which no longer exists on disk) and one junk entry. -/
theorem dailyInitQ_eq_spec_witness :
    dailyInitQ ['l', '.', 't', 'x', 't'] 2
        [calc_filename ['l', '.', 't', 'x', 't'] (localtime 1704153600),
         calc_filename ['l', '.', 't', 'x', 't'] (localtime 1704067200), ['z']]
        (fun f => decide (f = calc_filename ['l', '.', 't', 'x', 't'] (localtime 1704067200))) =
      specRecoverDaily ['l', '.', 't', 'x', 't'] 2
        [calc_filename ['l', '.', 't', 'x', 't'] (localtime 1704153600),
         calc_filename ['l', '.', 't', 'x', 't'] (localtime 1704067200), ['z']]
        (fun f => decide (f = calc_filename ['l', '.', 't', 'x', 't'] (localtime 1704067200))) :=
  dailyInitQ_eq_spec ['l', '.', 't', 'x', 't'] 2
    [calc_filename ['l', '.', 't', 'x', 't'] (localtime 1704153600),
     calc_filename ['l', '.', 't', 'x', 't'] (localtime 1704067200), ['z']]
    (fun f => decide (f = calc_filename ['l', '.', 't', 'x', 't'] (localtime 1704067200)))
    (by decide) (by decide)
